import Mathlib

/-!
Verification of the chain engine of the tool-chain-db repository.

The development shallowly embeds the pipeline engine of src/src/chains.ts
(class Chains: use, transaction, chain, invoke, executeSequentially,
executeWithTransaction, wrapWithOptions), the alternative copy of the step
normalization found in src/unnamed/part_007 (tryCallAsResultsFunction), and
the TypeORM adapter of src/src/adapters/typeorm.ts.

Modelling conventions: a settled promise is a value of Except JsError V
(resolve = ok, reject = error); a JS object used as the results accumulator
is an insertion ordered association list; a user supplied step definition is
represented by its observable behavior when called with the accumulator and
when called with the database handle.
-/

namespace ToolChain

/-- A thrown JavaScript Error value, identified by its message. -/
structure JsError where
  message : String
deriving DecidableEq, Repr

/-- The results accumulator: a JS object whose keys are inserted in order
(key r1, then r2, ...), holding the value produced by each finished step. -/
abbrev ResultsA (V : Type) := List (String × V)

/-- A normalized task, as stored in Chains.tasks:
(db, results) => Promise of the step value. -/
abbrev Task (Db V : Type) := Db → ResultsA V → Except JsError V

/-- Outcome of calling a step definition with the accumulator as argument:
the call may throw, return a non callable value, or return a callable. -/
inductive StepCallRes (Db V : Type) where
  | thrown (e : JsError)
  | retV (v : V)
  | retFn (g : Db → Except JsError V)

/-- A user supplied step definition (a JS function), represented by its
behavior on the two argument kinds the engine may pass it: the results
accumulator, or the database handle (the latter collapsed to the awaited
outcome, since the engine never inspects the callability of that result). -/
structure StepDef (Db V : Type) where
  withResults : ResultsA V → StepCallRes Db V
  withDb : Db → Except JsError V

/-- Error thrown by invoke() when no context is bound
(src/src/chains.ts line 153). -/
def databaseNotSetError : JsError :=
  JsError.mk "Database not set. Use .use(db) or .transaction(db) before invoking."

/-- Error thrown in transaction mode when no adapter is present
(src/src/chains.ts line 187). -/
def adapterRequiredError : JsError :=
  JsError.mk "Adapter is required for transaction mode. Use .transaction(db, adapter)"

/-- Error thrown by a normalized task when the appended argument is not a
function (src/src/chains.ts line 133). -/
def invalidFunctionTypeError : JsError :=
  JsError.mk "Invalid function type"

/-- The task built by Chains.chain from a step definition
(src/src/chains.ts lines 109 to 134).  The argument is some f when the
appended value is a function, none otherwise (typeof fn check).  The try
of lines 116 to 126 also spans the awaited db call of line 120 (return
await inside the try), so a rejection of the callable returned by the
results call is caught as well and the task falls back to the direct db
call of line 130. -/
def buildTask {Db V : Type} (fn : Option (StepDef Db V)) : Task Db V :=
  fun db results =>
    match fn with
    | some f =>
        -- hasResults: results && Object.keys(results).length > 0
        if !results.isEmpty then
          match f.withResults results with
          | .retFn g =>
            match g db with
            | .ok v => .ok v            -- results function pattern, resolves
            | .error _ => f.withDb db   -- rejection caught: fall back to db call
          | .retV _ => f.withDb db      -- not a function: fall back to db call
          | .thrown _ => f.withDb db    -- call failed: catch and fall back
        else f.withDb db                -- first call: direct db call
    | none => .error invalidFunctionTypeError

/-- The helper of the second copy of the engine
(src/unnamed/part_007 lines 262 to 278): try to call the definition as a
results function, returning the produced db function, or null. -/
def tryCallAsResultsFunction {Db V : Type} (f : StepDef Db V) (results : ResultsA V) :
    Option (Db → Except JsError V) :=
  match f.withResults results with
  | .retFn g => some g
  | .retV _ => none
  | .thrown _ => none

/-- The task built by Chains.chain in the second copy of the engine
(src/unnamed/part_007 lines 226 to 244), which delegates the
disambiguation to tryCallAsResultsFunction.  Here the awaited db call of
line 235 sits outside any try (the helper only guards the results call),
so a rejection of the returned callable propagates. -/
def buildTaskV2 {Db V : Type} (fn : Option (StepDef Db V)) : Task Db V :=
  fun db results =>
    match fn with
    | some f =>
        if !results.isEmpty then
          match tryCallAsResultsFunction f results with
          | some g => g db
          | none => f.withDb db
        else f.withDb db
    | none => .error invalidFunctionTypeError

/-- A database adapter: the single capability the engine consumes
(src/src/types.ts, interface DbAdapter). -/
structure DbAdapter (Db V : Type) where
  transaction : Db → (Db → Except JsError (Option V)) → Except JsError (Option V)

/-- The database context stored by a pipeline
(src/src/types.ts, interface DbContext). -/
structure DbContext (Db V : Type) where
  db : Db
  adapter : Option (DbAdapter Db V)
  isTransaction : Bool

/-- A pipeline value (class Chains of src/src/chains.ts): a nullable
context and the ordered list of normalized tasks. -/
structure Chains (Db V : Type) where
  context : Option (DbContext Db V) := none
  tasks : List (Task Db V) := []

/-- Chains.use (src/src/chains.ts lines 47 to 56): rebind the context
non transactionally, preserving the task list. -/
def Chains.use {Db V : Type} (c : Chains Db V) (db : Db)
    (adapter : Option (DbAdapter Db V)) : Chains Db V :=
  { context := some { db := db, adapter := adapter, isTransaction := false },
    tasks := c.tasks }

/-- Chains.transaction (src/src/chains.ts lines 64 to 73): rebind the
context transactionally, preserving the task list. -/
def Chains.transaction {Db V : Type} (c : Chains Db V) (db : Db)
    (adapter : DbAdapter Db V) : Chains Db V :=
  { context := some { db := db, adapter := some adapter, isTransaction := true },
    tasks := c.tasks }

/-- The key under which the result of the task at zero based index i is
recorded: the template literal r followed by i + 1. -/
def rKey (i : Nat) : String := "r" ++ toString (i + 1)

/-- The loop of executeSequentially and of the transaction callback
(src/src/chains.ts lines 168 to 176 and 191 to 200): run the tasks in
order, recording each result in the accumulator immediately after the task
resolves, and return the last result (none when no task ran). -/
def runTasks {Db V : Type} (db : Db) :
    List (Task Db V) → ResultsA V → Nat → Option V → Except JsError (Option V)
  | [], _, _, last => .ok last
  | t :: ts, results, i, _ =>
    match t db results with
    | .error e => .error e
    | .ok v => runTasks db ts (results ++ [(rKey i, v)]) (i + 1) (some v)

/-- Chains.executeSequentially (src/src/chains.ts lines 167 to 177). -/
def executeSequentially {Db V : Type} (db : Db) (tasks : List (Task Db V)) :
    Except JsError (Option V) :=
  runTasks db tasks [] 0 none

/-- The callback passed to the adapter capability by
executeWithTransaction: the same sequential walk, against the
transactional handle (src/src/chains.ts lines 190 to 201). -/
def transactionCallback {Db V : Type} (tasks : List (Task Db V)) :
    Db → Except JsError (Option V) :=
  fun trx => runTasks trx tasks [] 0 none

/-- Chains.executeWithTransaction (src/src/chains.ts lines 183 to 202). -/
def executeWithTransaction {Db V : Type} (ctx : DbContext Db V)
    (tasks : List (Task Db V)) : Except JsError (Option V) :=
  match ctx.adapter with
  | none => .error adapterRequiredError
  | some ad => ad.transaction ctx.db (transactionCallback tasks)

/-- Chains.invoke (src/src/chains.ts lines 151 to 161). -/
def Chains.invoke {Db V : Type} (c : Chains Db V) : Except JsError (Option V) :=
  match c.context with
  | none => .error databaseNotSetError
  | some ctx =>
    if ctx.isTransaction then executeWithTransaction ctx c.tasks
    else executeSequentially ctx.db c.tasks

/-- A step value as seen by the engine when per step options may be in
play: either a raw base value, or a capture envelope holding data or
error (the object shape of the withoutThrow option). -/
inductive JVal (B : Type) where
  | base (b : B)
  | dataEnv (v : JVal B)
  | errEnv (e : JsError)
deriving DecidableEq, Repr

/-- Options accepted by Chains.chain, as used by the repository: retry
(number of additional attempts) and withoutThrow (capture errors into an
envelope).  Modelled from the spec: the option object of the external
policy executor package; the timeout option is real time behavior and is
outside this embedding. -/
structure ChainOptions where
  retry : Option Nat := none
  withoutThrow : Bool := false

/-- Modelled from the spec: the retry loop of the external Step Policy
Executor package, missing from src.  Runs the operation once plus up to
the given number of retries, returning the first success, or the last
failure once attempts are exhausted. -/
def runWithRetries {V : Type} (op : Unit → Except JsError V) : Nat → Except JsError V
  | 0 => op ()
  | n + 1 =>
    match op () with
    | .ok v => .ok v
    | .error _ => runWithRetries op n

/-- Modelled from the spec: single step execution by the external Step
Policy Executor package (missing from src), as consumed by
wrapWithOptions: retries first, then, when withoutThrow is set, a data
envelope on success and an error envelope instead of a throw on
failure. -/
def corePolicyRun {B : Type} (op : Unit → Except JsError (JVal B))
    (o : ChainOptions) : Except JsError (JVal B) :=
  if o.withoutThrow then
    match runWithRetries op (o.retry.getD 0) with
    | .ok v => .ok (JVal.dataEnv v)
    | .error e => .ok (JVal.errEnv e)
  else runWithRetries op (o.retry.getD 0)

/-- Chains.wrapWithOptions (src/src/chains.ts lines 208 to 218): without
options the task is unchanged, otherwise each execution runs the task
through the external policy executor with the supplied options. -/
def wrapWithOptions {Db B : Type} (task : Task Db (JVal B))
    (options : Option ChainOptions) : Task Db (JVal B) :=
  match options with
  | none => task
  | some o => fun db results => corePolicyRun (fun _ => task db results) o

/-- Chains.chain (src/src/chains.ts lines 107 to 145): normalize the step
definition into a task, wrap it with the options, and return a new
pipeline value with the same context and the extended task list. -/
def Chains.chain {Db B : Type} (c : Chains Db (JVal B))
    (fn : Option (StepDef Db (JVal B))) (options : Option ChainOptions) :
    Chains Db (JVal B) :=
  { context := c.context,
    tasks := c.tasks ++ [wrapWithOptions (buildTask fn) options] }

/-- A TypeORM handle: either a DataSource or an EntityManager
(src/src/adapters/typeorm.ts).  Handles are identified by a natural
number id; the only structure the adapter inspects is the instanceof
distinction between the two kinds. -/
inductive TypeOrmDb where
  | dataSource (ds : Nat)
  | entityManager (em : Nat)
deriving DecidableEq, Repr

/-- TypeORMAdapter.transaction (src/src/adapters/typeorm.ts lines 45 to
54).  The DataSource branch delegates to the transaction machinery of the
typeorm library (an external collaborator), passed here as the parameter
dsTransaction; the EntityManager branch calls the callback directly on
the given EntityManager, with no machinery of its own. -/
def typeormAdapterTransaction {V : Type}
    (dsTransaction : Nat → (Nat → Except JsError V) → Except JsError V)
    (db : TypeOrmDb) (fn : Nat → Except JsError V) : Except JsError V :=
  match db with
  | .dataSource ds => dsTransaction ds fn
  | .entityManager em => fn em

/-- C9: when the handle bound to a transactional pipeline is a TypeORM
EntityManager (not a DataSource), TypeORMAdapter.transaction invokes the
callback directly on that very EntityManager, and its outcome does not
depend on the transaction machinery of the library at all (taking two
arbitrary implementations of it yields the same outcome), so the adapter
provides no commit or rollback boundary at this call site. -/
theorem c9_entity_manager_passthrough (V : Type)
    (dsTransaction dsTransaction2 : Nat → (Nat → Except JsError V) → Except JsError V)
    (em : Nat) (fn : Nat → Except JsError V) :
    typeormAdapterTransaction dsTransaction (TypeOrmDb.entityManager em) fn = fn em
    ∧ typeormAdapterTransaction dsTransaction (TypeOrmDb.entityManager em) fn
        = typeormAdapterTransaction dsTransaction2 (TypeOrmDb.entityManager em) fn :=
  ⟨rfl, rfl⟩

/-- C10: invoke() on a pipeline bound non transactionally with zero
appended steps resolves (does not throw) to undefined, modelled as
Except.ok none: the lastResult variable is never assigned. -/
theorem c10_empty_pipeline_undefined (Db V : Type) (db0 : Db)
    (a : Option (DbAdapter Db V)) :
    ((Chains.mk none []).use db0 a).invoke = .ok none :=
  rfl

/-- C5: invoke() with no bound context fails with the configuration error
Database not set, whatever the task list is (so no task can influence the
outcome, including tasks appended through chain with any retry or capture
options, since chain leaves the null context in place); and invoke() on a
transactional context with an absent adapter fails with the configuration
error Adapter is required, whatever the task list is, so no task executes
and no adapter capability is ever consulted. -/
theorem c5_configuration_errors (Db V B : Type) (db0 : Db)
    (tasks : List (Task Db V)) (tasks2 : List (Task Db (JVal B)))
    (f : Option (StepDef Db (JVal B))) (o : Option ChainOptions) :
    (Chains.mk none tasks).invoke = .error databaseNotSetError
    ∧ ((Chains.mk none tasks2).chain f o).invoke = .error databaseNotSetError
    ∧ (Chains.mk (some (DbContext.mk db0 none true)) tasks).invoke
        = .error adapterRequiredError :=
  ⟨rfl, rfl, rfl⟩

/-- C4: chain returns a new pipeline value whose context is the context of
the receiver (shared, not rebound) and whose task list is the task list of
the receiver extended by exactly the one wrapped task; use and transaction
return a new pipeline value preserving the task list and replacing only
the context (isTransaction false for use, true for transaction).  The
receiver itself is a pure value, so it is unchanged and invoking it
afterwards still runs only its original tasks. -/
theorem c4_builder_immutability (Db B : Type) (c : Chains Db (JVal B))
    (f : Option (StepDef Db (JVal B))) (o : Option ChainOptions) (db0 : Db)
    (a : Option (DbAdapter Db (JVal B))) (ad : DbAdapter Db (JVal B)) :
    (c.chain f o).context = c.context
    ∧ (c.chain f o).tasks = c.tasks ++ [wrapWithOptions (buildTask f) o]
    ∧ (c.chain f o).tasks.length = c.tasks.length + 1
    ∧ (c.use db0 a).tasks = c.tasks
    ∧ (c.use db0 a).context = some (DbContext.mk db0 a false)
    ∧ (c.transaction db0 ad).tasks = c.tasks
    ∧ (c.transaction db0 ad).context = some (DbContext.mk db0 (some ad) true) :=
  ⟨rfl, rfl, by simp [Chains.chain], rfl, rfl, rfl, rfl⟩

/-- Step definition whose accumulator call returns a callable that
rejects while the direct handle call resolves to 42: it separates the
claimed behavior of the normalization from the implemented one. -/
def c2fnD : StepDef Nat Nat :=
  StepDef.mk (fun _ => StepCallRes.retFn (fun _ => .error (JsError.mk "gboom")))
    (fun _ => .ok 42)

/-- Counterexample to C2 as stated: with a non empty accumulator the
definition returns a callable whose application to the handle rejects;
the claim predicts the step value is that awaited (rejected) result, but
the task built by chains.ts catches the rejection inside the try and
falls back to the direct handle call, resolving to 42. -/
theorem c2_counterexample :
    c2fnD.withResults [(rKey 0, 3)]
        = StepCallRes.retFn (fun _ => .error (JsError.mk "gboom"))
    ∧ buildTask (some c2fnD) 5 [(rKey 0, 3)] = .ok 42
    ∧ buildTask (some c2fnD) 5 [(rKey 0, 3)] ≠ .error (JsError.mk "gboom") :=
  ⟨rfl, rfl, by simp [buildTask, c2fnD]⟩

/-- C2 (amended): behavior of the normalized task built by chain.  With
an empty accumulator the definition is invoked with the handle only (the
outcome does not depend on the accumulator branch of the definition at
all); with a non empty accumulator the definition is first invoked with
the accumulator, and a callable result is invoked with the handle: its
awaited result is the step value when it resolves, while a rejection of
it is caught and falls back to invoking the definition with the handle
directly, exactly like a non callable result or a throw of the
accumulator call. -/
theorem c2_step_disambiguation (Db V : Type) (f : StepDef Db V) (db0 : Db) :
    (∀ wr : ResultsA V → StepCallRes Db V,
      buildTask (some (StepDef.mk wr f.withDb)) db0 [] = f.withDb db0)
    ∧ (∀ (results : ResultsA V) (g : Db → Except JsError V) (v : V), results ≠ [] →
        f.withResults results = .retFn g → g db0 = .ok v →
        buildTask (some f) db0 results = .ok v)
    ∧ (∀ (results : ResultsA V) (g : Db → Except JsError V) (e : JsError), results ≠ [] →
        f.withResults results = .retFn g → g db0 = .error e →
        buildTask (some f) db0 results = f.withDb db0)
    ∧ (∀ (results : ResultsA V) (v : V), results ≠ [] →
        f.withResults results = .retV v → buildTask (some f) db0 results = f.withDb db0)
    ∧ (∀ (results : ResultsA V) (e : JsError), results ≠ [] →
        f.withResults results = .thrown e → buildTask (some f) db0 results = f.withDb db0) := by
  refine ⟨fun wr => rfl, ?_, ?_, ?_, ?_⟩
  · intro results g v hne hres hg
    cases results with
    | nil => exact absurd rfl hne
    | cons p l => simp [buildTask, hres, hg]
  · intro results g e hne hres hg
    cases results with
    | nil => exact absurd rfl hne
    | cons p l => simp [buildTask, hres, hg]
  · intro results v hne hres
    cases results with
    | nil => exact absurd rfl hne
    | cons p l => simp [buildTask, hres]
  · intro results e hne hres
    cases results with
    | nil => exact absurd rfl hne
    | cons p l => simp [buildTask, hres]

/-- Step definition used by the witness of C2: calling it with the
accumulator yields a callable adding ten, calling it with the handle adds
one. -/
def c2fnA : StepDef Nat Nat :=
  StepDef.mk (fun _ => StepCallRes.retFn (fun d => .ok (d + 10))) (fun d => .ok (d + 1))

/-- Step definition used by the witness of C2: calling it with the
accumulator yields the non callable value seven. -/
def c2fnB : StepDef Nat Nat :=
  StepDef.mk (fun _ => StepCallRes.retV 7) (fun d => .ok (d + 1))

/-- Step definition used by the witness of C2: calling it with the
accumulator throws. -/
def c2fnC : StepDef Nat Nat :=
  StepDef.mk (fun _ => StepCallRes.thrown (JsError.mk "boom")) (fun d => .ok (d + 1))

/-- Witness for C2 at concrete inputs: the five branches evaluated on
small step definitions over natural number handles, including the caught
rejection of the returned callable. -/
theorem c2_step_disambiguation_witness :
    buildTask (some (StepDef.mk c2fnA.withResults c2fnA.withDb)) 5 [] = .ok 6
    ∧ buildTask (some c2fnA) 5 [(rKey 0, 3)] = .ok 15
    ∧ buildTask (some c2fnD) 5 [(rKey 0, 3)] = .ok 42
    ∧ buildTask (some c2fnB) 5 [(rKey 0, 3)] = .ok 6
    ∧ buildTask (some c2fnC) 5 [(rKey 0, 3)] = .ok 6 :=
  ⟨(c2_step_disambiguation Nat Nat c2fnA 5).1 c2fnA.withResults,
   (c2_step_disambiguation Nat Nat c2fnA 5).2.1 [(rKey 0, 3)] (fun d => .ok (d + 10))
     15 (by simp) rfl rfl,
   (c2_step_disambiguation Nat Nat c2fnD 5).2.2.1 [(rKey 0, 3)]
     (fun _ => .error (JsError.mk "gboom")) (JsError.mk "gboom") (by simp) rfl rfl,
   (c2_step_disambiguation Nat Nat c2fnB 5).2.2.2.1 [(rKey 0, 3)] 7 (by simp) rfl,
   (c2_step_disambiguation Nat Nat c2fnC 5).2.2.2.2 [(rKey 0, 3)] (JsError.mk "boom")
     (by simp) rfl⟩

/-- Step definition separating the two normalization copies: the
accumulator call returns a callable that rejects, the direct handle call
resolves to 42. -/
def c8fnD : StepDef Nat Nat :=
  StepDef.mk (fun _ => StepCallRes.retFn (fun _ => .error (JsError.mk "gboom")))
    (fun _ => .ok 42)

/-- Counterexample to C8 as stated: on a non empty accumulator and a
definition whose returned callable rejects, the chains.ts task resolves
to 42 (rejection caught, fallback to the direct handle call) while the
part_007 task rejects with that very error, so the two copies are not
extensionally equal. -/
theorem c8_counterexample :
    buildTask (some c8fnD) 5 [(rKey 0, 3)] = .ok 42
    ∧ buildTaskV2 (some c8fnD) 5 [(rKey 0, 3)] = .error (JsError.mk "gboom")
    ∧ buildTask (some c8fnD) 5 [(rKey 0, 3)] ≠ buildTaskV2 (some c8fnD) 5 [(rKey 0, 3)] :=
  ⟨rfl, rfl, by simp [buildTask, buildTaskV2, tryCallAsResultsFunction, c8fnD]⟩

/-- C8 (amended): the two copies of the step normalization agree on every
path except one: they produce the same outcome for a non function
argument, an empty accumulator, an accumulator call that throws or
returns a non callable, and a returned callable whose application to the
handle resolves; they differ exactly when the returned callable rejects,
where the inline copy of src/src/chains.ts catches the rejection and
falls back to the direct handle call while the
tryCallAsResultsFunction copy of src/unnamed/part_007 propagates the
rejection. -/
theorem c8_normalization_agreement (Db V : Type) (f : StepDef Db V) (db0 : Db)
    (results : ResultsA V) :
    (∀ fn : Option (StepDef Db V), buildTask fn db0 [] = buildTaskV2 fn db0 [])
    ∧ buildTask (none : Option (StepDef Db V)) db0 results
        = buildTaskV2 (none : Option (StepDef Db V)) db0 results
    ∧ (∀ v : V, results ≠ [] → f.withResults results = .retV v →
        buildTask (some f) db0 results = buildTaskV2 (some f) db0 results)
    ∧ (∀ e : JsError, results ≠ [] → f.withResults results = .thrown e →
        buildTask (some f) db0 results = buildTaskV2 (some f) db0 results)
    ∧ (∀ (g : Db → Except JsError V) (v : V), results ≠ [] →
        f.withResults results = .retFn g → g db0 = .ok v →
        buildTask (some f) db0 results = buildTaskV2 (some f) db0 results)
    ∧ (∀ (g : Db → Except JsError V) (e : JsError), results ≠ [] →
        f.withResults results = .retFn g → g db0 = .error e →
        buildTask (some f) db0 results = f.withDb db0
        ∧ buildTaskV2 (some f) db0 results = .error e) := by
  refine ⟨?_, rfl, ?_, ?_, ?_, ?_⟩
  · intro fn
    cases fn with
    | none => rfl
    | some f2 => rfl
  · intro v hne hres
    cases results with
    | nil => exact absurd rfl hne
    | cons p l => simp [buildTask, buildTaskV2, tryCallAsResultsFunction, hres]
  · intro e hne hres
    cases results with
    | nil => exact absurd rfl hne
    | cons p l => simp [buildTask, buildTaskV2, tryCallAsResultsFunction, hres]
  · intro g v hne hres hg
    cases results with
    | nil => exact absurd rfl hne
    | cons p l => simp [buildTask, buildTaskV2, tryCallAsResultsFunction, hres, hg]
  · intro g e hne hres hg
    cases results with
    | nil => exact absurd rfl hne
    | cons p l =>
      refine ⟨?_, ?_⟩
      · simp [buildTask, hres, hg]
      · simp [buildTaskV2, tryCallAsResultsFunction, hres, hg]

/-- Witness for C8 at concrete inputs: agreement on the empty
accumulator, and the diverging path evaluated on both copies. -/
theorem c8_normalization_agreement_witness :
    buildTask (some c8fnD) 5 [] = buildTaskV2 (some c8fnD) 5 []
    ∧ buildTask (some c8fnD) 5 [(rKey 0, 3)] = .ok 42
    ∧ buildTaskV2 (some c8fnD) 5 [(rKey 0, 3)] = .error (JsError.mk "gboom") :=
  ⟨(c8_normalization_agreement Nat Nat c8fnD 5 [(rKey 0, 3)]).1 (some c8fnD),
   ((c8_normalization_agreement Nat Nat c8fnD 5 [(rKey 0, 3)]).2.2.2.2.2
      (fun _ => .error (JsError.mk "gboom")) (JsError.mk "gboom")
      (by simp) rfl rfl).1,
   ((c8_normalization_agreement Nat Nat c8fnD 5 [(rKey 0, 3)]).2.2.2.2.2
      (fun _ => .error (JsError.mk "gboom")) (JsError.mk "gboom")
      (by simp) rfl rfl).2⟩

/-- A step that never fails: an arbitrary total function of the handle
and the accumulator.  Quantifying over these captures every pipeline in
which no task rejects. -/
abbrev PureStep (Db V : Type) := Db → ResultsA V → V

/-- The task of a never failing step. -/
def pureTask {Db V : Type} (f : PureStep Db V) : Task Db V :=
  fun db r => .ok (f db r)

/-- The values a list of never failing steps produces when run by the
engine from the given accumulator and index: each step is applied to the
accumulator extended with the results of all earlier steps. -/
def pureVals {Db V : Type} (db : Db) :
    List (PureStep Db V) → ResultsA V → Nat → List V
  | [], _, _ => []
  | f :: fs, acc, i =>
    f db acc :: pureVals db fs (acc ++ [(rKey i, f db acc)]) (i + 1)

/-- The accumulator fragment holding the given values under consecutive
keys starting at index i. -/
def accumFrom {V : Type} (i : Nat) : List V → ResultsA V
  | [] => []
  | v :: vs => (rKey i, v) :: accumFrom (i + 1) vs

/-- The value of the lastResult variable after recording the given list
of step values on top of its previous content. -/
def lastD {V : Type} : List V → Option V → Option V
  | [], last => last
  | v :: vs, _ => lastD vs (some v)

/-- Instrumented copy of runTasks that additionally records, for each
task invocation the loop performs, the task index and the accumulator
object passed to that task. -/
def runTasksTraced {Db V : Type} (db : Db) :
    List (Task Db V) → ResultsA V → Nat → Option V →
      Except JsError (Option V) × List (Nat × ResultsA V)
  | [], _, _, last => (.ok last, [])
  | t :: ts, results, i, _ =>
    match t db results with
    | .error e => (.error e, [(i, results)])
    | .ok v =>
      ((runTasksTraced db ts (results ++ [(rKey i, v)]) (i + 1) (some v)).1,
       (i, results) :: (runTasksTraced db ts (results ++ [(rKey i, v)]) (i + 1) (some v)).2)

/-- The instrumented runner computes the same outcome as the loop of the
engine. -/
theorem runTasksTraced_fst {Db V : Type} (db : Db) (ts : List (Task Db V)) :
    ∀ (acc : ResultsA V) (i : Nat) (last : Option V),
      (runTasksTraced db ts acc i last).1 = runTasks db ts acc i last := by
  induction ts with
  | nil => intro acc i last; rfl
  | cons t ts ih =>
    intro acc i last
    cases h : t db acc with
    | error e => simp [runTasksTraced, runTasks, h]
    | ok v => simp [runTasksTraced, runTasks, h, ih]

/-- Once the list is non empty, lastD is the last recorded value. -/
theorem lastD_eq_getLast {V : Type} (vs : List V) :
    ∀ last : Option V, vs ≠ [] → lastD vs last = vs.getLast? := by
  induction vs with
  | nil => intro last h; exact absurd rfl h
  | cons v vs ih =>
    intro last _
    cases vs with
    | nil => rfl
    | cons w ws =>
      rw [List.getLast?_cons_cons]
      exact ih (some v) (by simp)

/-- Running the tasks of never failing steps followed by arbitrary
further tasks: the run reaches the further tasks with the accumulator
extended by the recorded step values, the index advanced, and the last
value updated, and the trace records each step index with exactly the
accumulator of all earlier results. -/
theorem runTasksTraced_pure_front {Db V : Type} (db : Db)
    (fs : List (PureStep Db V)) :
    ∀ (ts : List (Task Db V)) (acc : ResultsA V) (i : Nat) (last : Option V),
      runTasksTraced db (fs.map pureTask ++ ts) acc i last
        = ((runTasksTraced db ts (acc ++ accumFrom i (pureVals db fs acc i))
              (i + fs.length) (lastD (pureVals db fs acc i) last)).1,
           (List.range fs.length).map
               (fun k => (i + k, acc ++ accumFrom i ((pureVals db fs acc i).take k)))
             ++ (runTasksTraced db ts (acc ++ accumFrom i (pureVals db fs acc i))
                   (i + fs.length) (lastD (pureVals db fs acc i) last)).2) := by
  induction fs with
  | nil =>
    intro ts acc i last
    simp [pureVals, accumFrom, lastD]
  | cons f fs ih =>
    intro ts acc i last
    have step : runTasksTraced db ((f :: fs).map pureTask ++ ts) acc i last
        = ((runTasksTraced db (fs.map pureTask ++ ts)
              (acc ++ [(rKey i, f db acc)]) (i + 1) (some (f db acc))).1,
           (i, acc) :: (runTasksTraced db (fs.map pureTask ++ ts)
              (acc ++ [(rKey i, f db acc)]) (i + 1) (some (f db acc))).2) := by
      simp [runTasksTraced, pureTask]
    rw [step, ih]
    have e1 : (acc ++ [(rKey i, f db acc)])
          ++ accumFrom (i + 1) (pureVals db fs (acc ++ [(rKey i, f db acc)]) (i + 1))
        = acc ++ accumFrom i (pureVals db (f :: fs) acc i) := by
      simp [pureVals, accumFrom]
    have e2 : (i + 1) + fs.length = i + (f :: fs).length := by
      simp [List.length_cons]; omega
    have e3 : lastD (pureVals db fs (acc ++ [(rKey i, f db acc)]) (i + 1)) (some (f db acc))
        = lastD (pureVals db (f :: fs) acc i) last := rfl
    have e4 : (i, acc) :: (List.range fs.length).map
          (fun k => (i + 1 + k, (acc ++ [(rKey i, f db acc)])
            ++ accumFrom (i + 1)
                ((pureVals db fs (acc ++ [(rKey i, f db acc)]) (i + 1)).take k)))
        = (List.range (f :: fs).length).map
            (fun k => (i + k, acc ++ accumFrom i ((pureVals db (f :: fs) acc i).take k))) := by
      rw [List.length_cons, List.range_succ_eq_map, List.map_cons, List.map_map]
      refine congrArg₂ _ (by simp [accumFrom]) ?_
      refine List.map_congr_left ?_
      intro k _
      simp only [Function.comp, pureVals, List.take_succ_cons, accumFrom, Prod.mk.injEq]
      exact ⟨by omega, by simp⟩
    rw [e1, e2, e3, ← e4]
    simp

/-- Each value the engine records for a list of never failing steps is the
corresponding step function applied to the accumulator holding exactly the
results of the earlier steps, keyed in order. -/
theorem pureVals_get {Db V : Type} (db : Db) (fs : List (PureStep Db V)) :
    ∀ (acc : ResultsA V) (i k : Nat) (hk : k < fs.length)
      (hv : k < (pureVals db fs acc i).length),
      (pureVals db fs acc i).get ⟨k, hv⟩
        = fs.get ⟨k, hk⟩ db (acc ++ accumFrom i ((pureVals db fs acc i).take k)) := by
  induction fs with
  | nil => intro acc i k hk hv; exact absurd hk (by simp)
  | cons f fs ih =>
    intro acc i k hk hv
    cases k with
    | zero => simp [pureVals, accumFrom]
    | succ k =>
      have hk2 : k < fs.length := by simpa using hk
      have hv2 : k < (pureVals db fs (acc ++ [(rKey i, f db acc)]) (i + 1)).length := by
        simpa [pureVals] using hv
      have ihk := ih (acc ++ [(rKey i, f db acc)]) (i + 1) k hk2 hv2
      simp only [pureVals, List.get_cons_succ, List.take_succ_cons, accumFrom]
      rw [ihk]
      simp

/-- An adapter whose transaction capability runs the callback on the
supplied transactional handle and propagates its outcome: the minimal
behavior the core contract requires from a collaborator. -/
def passThroughAdapter {Db V : Type} (trx : Db) : DbAdapter Db V :=
  DbAdapter.mk (fun _ f => f trx)

/-- The outcome of the engine loop on a non failing prefix followed by
arbitrary further tasks. -/
theorem runTasks_pure_front {Db V : Type} (db : Db) (fs : List (PureStep Db V))
    (ts : List (Task Db V)) (acc : ResultsA V) (i : Nat) (last : Option V) :
    runTasks db (fs.map pureTask ++ ts) acc i last
      = runTasks db ts (acc ++ accumFrom i (pureVals db fs acc i)) (i + fs.length)
          (lastD (pureVals db fs acc i) last) := by
  have h := congrArg Prod.fst (runTasksTraced_pure_front db fs ts acc i last)
  simpa [runTasksTraced_fst] using h

/-- Full characterization of a run of never failing steps: the outcome is
the last recorded value, and the trace pairs each step index with the
accumulator of all earlier results. -/
theorem seq_pure_run {Db V : Type} (db : Db) (fs : List (PureStep Db V))
    (h : fs ≠ []) :
    (∃ w : V, (pureVals db fs [] 0).getLast? = some w
      ∧ runTasks db (fs.map pureTask) [] 0 none = .ok (some w))
    ∧ runTasksTraced db (fs.map pureTask) [] 0 none
        = (.ok ((pureVals db fs [] 0).getLast?),
           (List.range fs.length).map
             (fun k => (k, accumFrom 0 ((pureVals db fs [] 0).take k)))) := by
  have hvs : pureVals db fs [] 0 ≠ [] := by
    cases fs with
    | nil => exact absurd rfl h
    | cons f fs => simp [pureVals]
  have htr : runTasksTraced db (fs.map pureTask) [] 0 none
      = (.ok ((pureVals db fs [] 0).getLast?),
         (List.range fs.length).map
           (fun k => (k, accumFrom 0 ((pureVals db fs [] 0).take k)))) := by
    have h2 := runTasksTraced_pure_front db fs [] [] 0 none
    rw [List.append_nil] at h2
    rw [h2]
    simp [runTasksTraced, lastD_eq_getLast _ _ hvs]
  obtain ⟨w, hw⟩ : ∃ w, (pureVals db fs [] 0).getLast? = some w := by
    cases hvv : pureVals db fs [] 0 with
    | nil => exact absurd hvv hvs
    | cons v vs => exact ⟨(v :: vs).getLast (by simp), List.getLast?_eq_getLast _ _⟩
  refine ⟨⟨w, hw, ?_⟩, htr⟩
  rw [← runTasksTraced_fst, htr, hw]

/-- C1: for a pipeline bound non transactionally via use whose tasks come
from never failing steps s1 to sn with n at least one, invoke() returns
exactly the value of the last step (not the accumulator); the trace shows
that the accumulator passed to step k holds exactly the results of the
earlier steps under keys r1 to r(k-1), recorded in order as each step
resolves and before the next one starts; and each recorded value is its
step function applied to exactly that accumulator. -/
theorem c1_sequential_execution (Db V : Type) (db0 : Db)
    (a : Option (DbAdapter Db V)) (fs : List (PureStep Db V)) (h : fs ≠ []) :
    (∃ w : V, (pureVals db0 fs [] 0).getLast? = some w
      ∧ ((Chains.mk none (fs.map pureTask)).use db0 a).invoke = .ok (some w))
    ∧ (runTasksTraced db0 (fs.map pureTask) [] 0 none).2
        = (List.range fs.length).map
            (fun k => (k, accumFrom 0 ((pureVals db0 fs [] 0).take k)))
    ∧ (runTasksTraced db0 (fs.map pureTask) [] 0 none).1
        = ((Chains.mk none (fs.map pureTask)).use db0 a).invoke
    ∧ (∀ (k : Nat) (hk : k < fs.length) (hv : k < (pureVals db0 fs [] 0).length),
        (pureVals db0 fs [] 0).get ⟨k, hv⟩
          = fs.get ⟨k, hk⟩ db0 (accumFrom 0 ((pureVals db0 fs [] 0).take k))) := by
  obtain ⟨⟨w, hw, hrun⟩, htr⟩ := seq_pure_run db0 fs h
  have hinv : ((Chains.mk none (fs.map pureTask)).use db0 a).invoke = .ok (some w) := hrun
  refine ⟨⟨w, hw, hinv⟩, by rw [htr], ?_, ?_⟩
  · rw [htr, hinv, hw]
  · intro k hk hv
    have := pureVals_get db0 fs [] 0 k hk hv
    simpa using this

/-- Witness for C1: two concrete steps over natural number handles; the
second step reads the length of the accumulator. -/
theorem c1_sequential_execution_witness :
    ([fun d _ => d + 1, fun d r => d + r.length] : List (PureStep Nat Nat)) ≠ []
    ∧ (∃ w : Nat,
        (pureVals 5 [fun d _ => d + 1, fun d r => d + r.length] [] 0).getLast? = some w
        ∧ ((Chains.mk none
              (([fun d _ => d + 1, fun d r => d + r.length] :
                List (PureStep Nat Nat)).map pureTask)).use 5 none).invoke
            = .ok (some w)) :=
  ⟨by simp,
   (c1_sequential_execution Nat Nat 5 none
     [fun d _ => d + 1, fun d r => d + r.length] (by simp)).1⟩

/-- C3: invoke() on a transactional pipeline consumes the adapter
capability exactly once (its outcome is one application of the capability
to the bound handle and the sequential callback); with the pass through
adapter supplying the transactional handle trx, the run is the same
sequential walk against trx (never the bound handle, which is arbitrary
here and absent from the conclusion), with identical accumulator
threading, and the last step value is returned from invoke(). -/
theorem c3_transactional_strategy (Db V : Type) (db0 trx : Db)
    (g : Db → (Db → Except JsError (Option V)) → Except JsError (Option V))
    (tasks : List (Task Db V)) (fs : List (PureStep Db V)) (h : fs ≠ []) :
    ((Chains.mk none tasks).transaction db0 (DbAdapter.mk g)).invoke
        = g db0 (transactionCallback tasks)
    ∧ (∃ w : V, (pureVals trx fs [] 0).getLast? = some w
        ∧ ((Chains.mk none (fs.map pureTask)).transaction db0
              (passThroughAdapter trx)).invoke = .ok (some w))
    ∧ (runTasksTraced trx (fs.map pureTask) [] 0 none).2
        = (List.range fs.length).map
            (fun k => (k, accumFrom 0 ((pureVals trx fs [] 0).take k)))
    ∧ (runTasksTraced trx (fs.map pureTask) [] 0 none).1
        = ((Chains.mk none (fs.map pureTask)).transaction db0
              (passThroughAdapter trx)).invoke := by
  obtain ⟨⟨w, hw, hrun⟩, htr⟩ := seq_pure_run trx fs h
  have hinv : ((Chains.mk none (fs.map pureTask)).transaction db0
      (passThroughAdapter trx)).invoke = .ok (some w) := hrun
  refine ⟨rfl, ⟨w, hw, hinv⟩, by rw [htr], ?_⟩
  rw [htr, hinv, hw]

/-- Witness for C3: the pass through adapter supplies the handle seven
while the bound handle is five; the steps read the transactional
handle. -/
theorem c3_transactional_strategy_witness :
    ([fun d _ => d, fun d r => d + r.length] : List (PureStep Nat Nat)) ≠ []
    ∧ (∃ w : Nat,
        (pureVals 7 [fun d _ => d, fun d r => d + r.length] [] 0).getLast? = some w
        ∧ ((Chains.mk none
              (([fun d _ => d, fun d r => d + r.length] :
                List (PureStep Nat Nat)).map pureTask)).transaction 5
              (passThroughAdapter 7)).invoke = .ok (some w)) :=
  ⟨by simp,
   (c3_transactional_strategy Nat Nat 5 7 (fun d f => f d) []
     [fun d _ => d, fun d r => d + r.length] (by simp)).2.1⟩

/-- C6: if the task after a non failing prefix of k steps rejects with an
error (and is not wrapped in a capturing policy), invoke() rejects with
exactly that error whatever the later tasks are (so they are never
invoked), in the sequential strategy and in the transactional strategy
alike; the trace shows that exactly the first k + 1 tasks were invoked,
and that no accumulator ever passed to a task holds a key of step k + 1
or later. -/
theorem c6_uncaught_error_aborts (Db V : Type) (db0 trx : Db)
    (fs : List (PureStep Db V)) (t : Task Db V) (e : JsError)
    (hseq : t db0 (accumFrom 0 (pureVals db0 fs [] 0)) = .error e)
    (htrx : t trx (accumFrom 0 (pureVals trx fs [] 0)) = .error e) :
    (∀ post : List (Task Db V),
      ((Chains.mk none (fs.map pureTask ++ t :: post)).use db0 none).invoke
        = .error e)
    ∧ (∀ post : List (Task Db V),
      ((Chains.mk none (fs.map pureTask ++ t :: post)).transaction db0
          (passThroughAdapter trx)).invoke = .error e)
    ∧ (∀ post : List (Task Db V),
      (runTasksTraced db0 (fs.map pureTask ++ t :: post) [] 0 none).2
        = (List.range fs.length).map
            (fun k => (k, accumFrom 0 ((pureVals db0 fs [] 0).take k)))
          ++ [(fs.length, accumFrom 0 (pureVals db0 fs [] 0))]) := by
  refine ⟨?_, ?_, ?_⟩
  · intro post
    show runTasks db0 (fs.map pureTask ++ t :: post) [] 0 none = .error e
    rw [runTasks_pure_front]
    simp [runTasks, hseq]
  · intro post
    show runTasks trx (fs.map pureTask ++ t :: post) [] 0 none = .error e
    rw [runTasks_pure_front]
    simp [runTasks, htrx]
  · intro post
    rw [runTasksTraced_pure_front]
    simp [runTasksTraced, hseq]

/-- Witness for C6: one successful step, then a task rejecting with boom,
then one more task that is shown never to matter. -/
theorem c6_uncaught_error_aborts_witness :
    ((fun _ _ => .error (JsError.mk "boom")) : Task Nat Nat) 5
        (accumFrom 0 (pureVals 5 [fun d _ => d + 1] [] 0))
      = .error (JsError.mk "boom")
    ∧ ((Chains.mk none (([fun d _ => d + 1] : List (PureStep Nat Nat)).map pureTask
          ++ (fun _ _ => .error (JsError.mk "boom")) :: [pureTask (fun d _ => d + 2)])).use
            5 none).invoke = .error (JsError.mk "boom")
    ∧ ((Chains.mk none (([fun d _ => d + 1] : List (PureStep Nat Nat)).map pureTask
          ++ (fun _ _ => .error (JsError.mk "boom")) :: [pureTask (fun d _ => d + 2)])).transaction
            5 (passThroughAdapter 7)).invoke = .error (JsError.mk "boom") :=
  ⟨rfl,
   (c6_uncaught_error_aborts Nat Nat 5 7 [fun d _ => d + 1]
     (fun _ _ => .error (JsError.mk "boom")) (JsError.mk "boom") rfl rfl).1
     [pureTask (fun d _ => d + 2)],
   (c6_uncaught_error_aborts Nat Nat 5 7 [fun d _ => d + 1]
     (fun _ _ => .error (JsError.mk "boom")) (JsError.mk "boom") rfl rfl).2.1
     [pureTask (fun d _ => d + 2)]⟩

/-- Retrying a constantly succeeding operation yields its value. -/
theorem runWithRetries_const_ok {V : Type} (op : Unit → Except JsError V)
    (v : V) (h : op () = .ok v) : ∀ n, runWithRetries op n = .ok v := by
  intro n
  cases n with
  | zero => simpa [runWithRetries] using h
  | succ n => simp [runWithRetries, h]

/-- Retrying a constantly failing operation yields its error once the
attempts are exhausted. -/
theorem runWithRetries_const_error {V : Type} (op : Unit → Except JsError V)
    (e : JsError) (h : op () = .error e) : ∀ n, runWithRetries op n = .error e := by
  intro n
  induction n with
  | zero => simpa [runWithRetries] using h
  | succ n ih => simp [runWithRetries, h, ih]

/-- With the capture option set, the policy executor never rejects. -/
theorem corePolicyRun_capture_total {B : Type} (op : Unit → Except JsError (JVal B))
    (o : ChainOptions) (ho : o.withoutThrow = true) (e1 : JsError) :
    corePolicyRun op o ≠ .error e1 := by
  simp only [corePolicyRun, ho, if_true]
  cases runWithRetries op (o.retry.getD 0) <;> simp

/-- C7: a step wrapped with the capture option never rejects; after a non
failing prefix, if the underlying task rejects with an error, the pipeline
is not aborted: the value recorded under the key of that step is the error
envelope (never the raw value), and the run continues through every later
task, each receiving the accumulator holding that envelope under the key
of the captured step; if the underlying task resolves, the recorded value
is the data envelope. -/
theorem c7_capture_envelope (Db B : Type) (db0 : Db)
    (fs : List (PureStep Db (JVal B))) (t : Task Db (JVal B)) (o : ChainOptions)
    (e : JsError) (v : JVal B) (ho : o.withoutThrow = true) :
    (∀ (db1 : Db) (acc : ResultsA (JVal B)) (e1 : JsError),
        wrapWithOptions t (some o) db1 acc ≠ .error e1)
    ∧ (t db0 (accumFrom 0 (pureVals db0 fs [] 0)) = .error e →
        ∀ post : List (Task Db (JVal B)),
        ((Chains.mk none
            (fs.map pureTask ++ wrapWithOptions t (some o) :: post)).use db0 none).invoke
          = runTasks db0 post
              (accumFrom 0 (pureVals db0 fs [] 0)
                ++ [(rKey fs.length, JVal.errEnv e)])
              (fs.length + 1) (some (JVal.errEnv e)))
    ∧ (t db0 (accumFrom 0 (pureVals db0 fs [] 0)) = .ok v →
        ∀ post : List (Task Db (JVal B)),
        ((Chains.mk none
            (fs.map pureTask ++ wrapWithOptions t (some o) :: post)).use db0 none).invoke
          = runTasks db0 post
              (accumFrom 0 (pureVals db0 fs [] 0)
                ++ [(rKey fs.length, JVal.dataEnv v)])
              (fs.length + 1) (some (JVal.dataEnv v))) := by
  refine ⟨?_, ?_, ?_⟩
  · intro db1 acc e1
    exact corePolicyRun_capture_total _ o ho e1
  · intro ht post
    have hw : wrapWithOptions t (some o) db0 (accumFrom 0 (pureVals db0 fs [] 0))
        = .ok (JVal.errEnv e) := by
      simp only [wrapWithOptions, corePolicyRun, ho, if_true]
      rw [runWithRetries_const_error _ e ht]
    show runTasks db0 (fs.map pureTask ++ wrapWithOptions t (some o) :: post) [] 0 none = _
    rw [runTasks_pure_front]
    simp [runTasks, hw]
  · intro ht post
    have hw : wrapWithOptions t (some o) db0 (accumFrom 0 (pureVals db0 fs [] 0))
        = .ok (JVal.dataEnv v) := by
      simp only [wrapWithOptions, corePolicyRun, ho, if_true]
      rw [runWithRetries_const_ok _ v ht]
    show runTasks db0 (fs.map pureTask ++ wrapWithOptions t (some o) :: post) [] 0 none = _
    rw [runTasks_pure_front]
    simp [runTasks, hw]

/-- Witness for C7: a failing captured step with two retries directly at
the head of the pipeline, followed by one further task, which still runs
and receives the error envelope under key r1. -/
theorem c7_capture_envelope_witness :
    ({ retry := some 2, withoutThrow := true } : ChainOptions).withoutThrow = true
    ∧ ((fun _ _ => .error (JsError.mk "x")) : Task Nat (JVal Nat)) 5
        (accumFrom 0 (pureVals 5 [] [] 0)) = .error (JsError.mk "x")
    ∧ ((Chains.mk none
          (([] : List (PureStep Nat (JVal Nat))).map pureTask
            ++ wrapWithOptions (fun _ _ => .error (JsError.mk "x"))
                (some { retry := some 2, withoutThrow := true })
              :: [pureTask (fun _ r => JVal.base r.length)])).use 5 none).invoke
        = runTasks 5 [pureTask (fun _ r => JVal.base r.length)]
            (accumFrom 0 (pureVals 5 [] [] 0)
              ++ [(rKey 0, JVal.errEnv (JsError.mk "x"))])
            1 (some (JVal.errEnv (JsError.mk "x"))) :=
  ⟨rfl, rfl,
   (c7_capture_envelope Nat Nat 5 [] (fun _ _ => .error (JsError.mk "x"))
     { retry := some 2, withoutThrow := true } (JsError.mk "x") (JVal.base 0)
     rfl).2.1 rfl [pureTask (fun _ r => JVal.base r.length)]⟩

end ToolChain
